import Mathlib

set_option maxRecDepth 20000

attribute [local semireducible] Rat.add Rat.mul Rat.inv Rat.sub Rat.ofScientific

/-!
Verification development for the structural-geometry core of the docking
pipeline (`make_vina_box_from_residues.py` and the recentering step of
`run_pipeline.py`).

Lines of the fixed-column structural text format are modelled as `List Char`;
Python floating point values are modelled as exact rationals `ℚ`.  Under this
model `float(s)` on a fixed-column decimal field becomes `pyFloat?`,
`int(s)` becomes `pyInt?`, and the `%.3f` / `%8.3f` format specifiers become
`formatFixed3` / `fmt8_3` (rounding to the nearest thousandth; rationals carry
no signed zero and no NaN, and the binary-double rounding of CPython is
replaced by exact rational rounding).  The parser models the decimal forms
`float` accepts on such fields: optional surrounding whitespace, an optional
sign, digits with at most one decimal point and at least one digit
(exponents, underscores and the `inf`/`nan` spellings never occur in
fixed-column coordinate fields and are not modelled).
-/

/-- Whitespace characters stripped by Python's `str.strip()` (the ones that can
occur in a text line of the structural format). -/
def isWs (c : Char) : Bool :=
  c == ' ' || c == '\t' || c == '\n' || c == '\r'

/-- Python `s.strip()`: drop leading and trailing whitespace. -/
def stripWs (l : List Char) : List Char :=
  ((l.dropWhile isWs).reverse.dropWhile isWs).reverse

/-- All characters are ASCII digits. -/
def allDigits (l : List Char) : Bool :=
  l.all Char.isDigit

/-- Value of a big-endian ASCII digit string. -/
def digitsToNat (l : List Char) : ℕ :=
  l.foldl (fun a c => 10 * a + (c.toNat - 48)) 0

/-- Big-endian decimal digit characters of `n`, with explicit fuel so that the
recursion is structural (the fuel is always taken to be `n` itself). -/
def natDigitsAux : ℕ → ℕ → List Char
  | 0, _ => []
  | _ + 1, 0 => []
  | fuel + 1, n + 1 =>
      natDigitsAux fuel ((n + 1) / 10) ++ [Nat.digitChar ((n + 1) % 10)]

/-- Big-endian decimal digit characters of `n` (`"0"` for zero). -/
def natDigits (n : ℕ) : List Char :=
  if n = 0 then ['0'] else natDigitsAux n n

/-- Left-pad a character list to width `w` with copies of `c`. -/
def padLeft (c : Char) (w : ℕ) (l : List Char) : List Char :=
  List.replicate (w - l.length) c ++ l

/-- Python slice `l[a:b]` (clamping, as Python slices do). -/
def pySlice (l : List Char) (a b : ℕ) : List Char :=
  (l.drop a).take (b - a)

/-- Split a character list at its first `'.'`: the part before it and, when a
dot is present, the part after it (kept verbatim). -/
def splitAtDot : List Char → List Char × Option (List Char)
  | [] => ([], none)
  | c :: rest =>
      if c = '.' then ([], some rest)
      else
        let p := splitAtDot rest
        (c :: p.1, p.2)

/-- The unsigned decimal forms accepted by Python `float` on a fixed-column
field: digits with at most one dot and at least one digit overall. -/
def parseMantissa (l : List Char) : Option ℚ :=
  match splitAtDot l with
  | (ip, none) =>
      if ip ≠ [] ∧ allDigits ip = true then some (digitsToNat ip) else none
  | (ip, some fp) =>
      if '.' ∈ fp then none
      else if (ip ++ fp) ≠ [] ∧ allDigits ip = true ∧ allDigits fp = true then
        some ((digitsToNat ip : ℚ) + (digitsToNat fp : ℚ) / 10 ^ fp.length)
      else none

/-- Sign handling of `float(s)` after whitespace stripping. -/
def pyFloatCore : List Char → Option ℚ
  | [] => none
  | c :: rest =>
      if c = '-' then (parseMantissa rest).map (fun q => -q)
      else if c = '+' then parseMantissa rest
      else parseMantissa (c :: rest)

/-- Model of Python `float(s)` on a fixed-column decimal field: strip
whitespace, take an optional sign, then an unsigned mantissa. -/
def pyFloat? (l : List Char) : Option ℚ :=
  pyFloatCore (stripWs l)

/-- Sign handling of `int(s)` after whitespace stripping. -/
def pyIntCore : List Char → Option ℤ
  | [] => none
  | c :: rest =>
      if c = '-' then
        if rest ≠ [] ∧ allDigits rest = true then some (-(digitsToNat rest : ℤ))
        else none
      else if c = '+' then
        if rest ≠ [] ∧ allDigits rest = true then some ((digitsToNat rest : ℤ))
        else none
      else if allDigits (c :: rest) = true then some ((digitsToNat (c :: rest) : ℤ))
      else none

/-- Model of Python `int(s)`: strip whitespace, optional sign, digits only. -/
def pyInt? (l : List Char) : Option ℤ :=
  pyIntCore (stripWs l)

/-- `q` rounded to the nearest thousandth, as a rational. -/
def round3 (q : ℚ) : ℚ :=
  (round (1000 * q) : ℤ) / 1000

/-- Model of the Python format specifier `%.3f`: sign, integer part, a dot and
exactly three fraction digits. -/
def formatFixed3 (q : ℚ) : List Char :=
  let n : ℤ := round (1000 * q)
  let a : ℕ := n.natAbs
  (if n < 0 then ['-'] else []) ++
    natDigits (a / 1000) ++ '.' :: padLeft '0' 3 (natDigits (a % 1000))

/-- Model of the Python format specifier `%8.3f`: `formatFixed3` right-justified
to a minimum width of 8 characters. -/
def fmt8_3 (q : ℚ) : List Char :=
  padLeft ' ' 8 (formatFixed3 q)

/-- `line.startswith(("ATOM", "HETATM"))`. -/
def isAtomLine (l : List Char) : Bool :=
  List.isPrefixOf "ATOM".toList l || List.isPrefixOf "HETATM".toList l

/-- The three per-axis coordinate lists accumulated by the parsing loops. -/
structure Coords3 where
  xs : List ℚ
  ys : List ℚ
  zs : List ℚ
deriving DecidableEq

/-- One line's contribution to the coordinate lists.  Faithful to the source's
`try: xs.append(float(ln[30:38])); ys.append(...); zs.append(...)` block: the
appends run left to right and a `ValueError` abandons only the appends that
have not happened yet. -/
def appendCoords (acc : Coords3) (ln : List Char) : Coords3 :=
  match pyFloat? (pySlice ln 30 38) with
  | none => acc
  | some x =>
    match pyFloat? (pySlice ln 38 46) with
    | none => ⟨acc.xs ++ [x], acc.ys, acc.zs⟩
    | some y =>
      match pyFloat? (pySlice ln 46 54) with
      | none => ⟨acc.xs ++ [x], acc.ys ++ [y], acc.zs⟩
      | some z => ⟨acc.xs ++ [x], acc.ys ++ [y], acc.zs ++ [z]⟩

/-- One step of the coordinate-collection loop of `run_pipeline.py`
(lines 230-237): every `ATOM`/`HETATM` line contributes. -/
def rpStep (acc : Coords3) (ln : List Char) : Coords3 :=
  if isAtomLine ln then appendCoords acc ln else acc

/-- The coordinate lists the recentering step collects from one ligand file
(`run_pipeline.py` lines 229-237). -/
def collectCoords (lines : List (List Char)) : Coords3 :=
  lines.foldl rpStep ⟨[], [], []⟩

/-- The line rewrite of `run_pipeline.py` lines 248-257:
`ln = f"{ln[:30]}{x:8.3f}{y:8.3f}{z:8.3f}{ln[54:]}"`, guarded by the
`ATOM`/`HETATM` test and by the `try`/`except ValueError` around the three
`float` calls (a parse failure leaves the line untouched). -/
def translateLine (dx dy dz : ℚ) (ln : List Char) : List Char :=
  if isAtomLine ln then
    match pyFloat? (pySlice ln 30 38) with
    | none => ln
    | some x =>
      match pyFloat? (pySlice ln 38 46) with
      | none => ln
      | some y =>
        match pyFloat? (pySlice ln 46 54) with
        | none => ln
        | some z =>
            ln.take 30 ++ fmt8_3 (x + dx) ++ fmt8_3 (y + dy) ++ fmt8_3 (z + dz) ++
              ln.drop 54
  else ln

/-- The per-file recentering of `run_pipeline.py` lines 226-260.  `none` models
the uncaught `ZeroDivisionError` raised when `xs` is non-empty but `ys` (or
`zs`) is empty; `if not xs: continue` leaves the file unchanged. -/
def recenterFile (cx cy cz : ℚ) (lines : List (List Char)) :
    Option (List (List Char)) :=
  let c := collectCoords lines
  if c.xs = [] then some lines
  else if c.ys = [] ∨ c.zs = [] then none
  else
    let dx := cx - c.xs.sum / (c.xs.length : ℚ)
    let dy := cy - c.ys.sum / (c.ys.length : ℚ)
    let dz := cz - c.zs.sum / (c.zs.length : ℚ)
    some (lines.map (translateLine dx dy dz))

/-- The recentering loop over a batch of ligand files (`run_pipeline.py`
lines 222-260), sequential; an uncaught exception in one file aborts the
remainder of the batch. -/
def recenterBatch (cx cy cz : ℚ) :
    List (List (List Char)) → Option (List (List (List Char)))
  | [] => some []
  | f :: fs =>
    match recenterFile cx cy cz f with
    | none => none
    | some g =>
      match recenterBatch cx cy cz fs with
      | none => none
      | some gs => some (g :: gs)

/-- One step of the scan in `get_residue_coords`
(`make_vina_box_from_residues.py` lines 22-36).  `none` models the uncaught
`IndexError` of `line[21]` on an atom-tagged line shorter than 22 characters;
otherwise the line contributes exactly when `(chain, resid)` is in the target
set. -/
def grcStep (tg : List (List Char × ℤ)) (acc : Coords3) (ln : List Char) :
    Option Coords3 :=
  if isAtomLine ln = false then some acc
  else if ln.length ≤ 21 then none
  else
    let chain := stripWs [ln.getD 21 ' ']
    match pyInt? (pySlice ln 22 26) with
    | none => some acc
    | some r =>
      if (chain, r) ∈ tg then some (appendCoords acc ln) else some acc

/-- The whole scan of `get_residue_coords` over the receptor lines. -/
def grcFold (tg : List (List Char × ℤ)) :
    Coords3 → List (List Char) → Option Coords3
  | acc, [] => some acc
  | acc, ln :: ls =>
    match grcStep tg acc ln with
    | none => none
    | some acc2 => grcFold tg acc2 ls

/-- Possible outcomes of `get_residue_coords`. -/
inductive GrcRes where
  | crash : GrcRes
  | noMatch : GrcRes
  | found : List ℚ → List ℚ → List ℚ → GrcRes
deriving DecidableEq

/-- `get_residue_coords` (`make_vina_box_from_residues.py` lines 18-39):
scan the receptor lines, then `sys.exit` when `xs` is empty. -/
def get_residue_coords (lines : List (List Char)) (tg : List (List Char × ℤ)) :
    GrcRes :=
  match grcFold tg ⟨[], [], []⟩ lines with
  | none => .crash
  | some acc => if acc.xs = [] then .noMatch else .found acc.xs acc.ys acc.zs

/-- Python `s.split(sep)` for a single-character separator: always at least one
part, empty parts kept. -/
def splitOnChar (sep : Char) : List Char → List (List Char)
  | [] => [[]]
  | c :: rest =>
    let r := splitOnChar sep rest
    if c = sep then [] :: r
    else
      match r with
      | [] => [[c]]
      | h :: t => (c :: h) :: t

/-- The fatal message of `parse_residue_list` for a bad token. -/
def resErrMsg (item : List Char) : List Char :=
  "❌ Invalid residue specifier: ".toList ++ item ++
    ". Use format Chain:Resid".toList

/-- The loop body of `parse_residue_list` over the comma-separated tokens:
strip each token, skip empty ones, unpack `chain:resid` (exactly one colon) and
parse the residue number; any `ValueError` is the fatal exit carrying the
stripped token. -/
def prlGo : List (List Char) → List (List Char × ℤ) →
    Except (List Char) (List (List Char × ℤ))
  | [], acc => .ok acc
  | raw :: rest, acc =>
    let item := stripWs raw
    if item = [] then prlGo rest acc
    else
      match splitOnChar ':' item with
      | [chain, resid] =>
        match pyInt? resid with
        | some n => prlGo rest (acc ++ [(stripWs chain, n)])
        | none => .error (resErrMsg item)
      | _ => .error (resErrMsg item)

/-- `parse_residue_list` (`make_vina_box_from_residues.py` lines 5-16). -/
def parse_residue_list (reslist : List Char) :
    Except (List Char) (List (List Char × ℤ)) :=
  prlGo (splitOnChar ',' reslist) []

deriving instance DecidableEq for Except

/-- Python `min` over a non-empty list, head plus fold. -/
def foldlMin (x : ℚ) (xs : List ℚ) : ℚ := xs.foldl min x

/-- Python `max` over a non-empty list, head plus fold. -/
def foldlMax (x : ℚ) (xs : List ℚ) : ℚ := xs.foldl max x

/-- The emitted docking box: center and size per axis. -/
structure VinaBox where
  cx : ℚ
  cy : ℚ
  cz : ℚ
  sx : ℚ
  sy : ℚ
  sz : ℚ
deriving DecidableEq

/-- The box computation of `make_vina_box_from_residues.py` lines 55-60:
componentwise min/max, `center = mean([min, max])`,
`size = (max - min) + 2*padding`.  `none` models the `ValueError` of
`min([])` on an empty axis list. -/
def boxFromCoords : List ℚ → List ℚ → List ℚ → ℚ → Option VinaBox
  | x0 :: xr, y0 :: yr, z0 :: zr, padding =>
    let xmin := foldlMin x0 xr
    let xmax := foldlMax x0 xr
    let ymin := foldlMin y0 yr
    let ymax := foldlMax y0 yr
    let zmin := foldlMin z0 zr
    let zmax := foldlMax z0 zr
    some ⟨(xmin + xmax) / 2, (ymin + ymax) / 2, (zmin + zmax) / 2,
      (xmax - xmin) + 2 * padding, (ymax - ymin) + 2 * padding,
      (zmax - zmin) + 2 * padding⟩
  | _, _, _, _ => none

/-- The config text written by `make_vina_box_from_residues.py` lines 62-66. -/
def configText (receptor : List Char) (b : VinaBox) : List Char :=
  "receptor = ".toList ++ receptor ++ "\n".toList ++
  "center_x = ".toList ++ formatFixed3 b.cx ++ "\ncenter_y = ".toList ++
    formatFixed3 b.cy ++ "\ncenter_z = ".toList ++ formatFixed3 b.cz ++
    "\n".toList ++
  "size_x = ".toList ++ formatFixed3 b.sx ++ "\nsize_y = ".toList ++
    formatFixed3 b.sy ++ "\nsize_z = ".toList ++ formatFixed3 b.sz ++
    "\n".toList ++
  "exhaustiveness = 8\nnum_modes = 9\nenergy_range = 3\n".toList

/-- Possible outcomes of a `make_vina_box_from_residues.py` run (after the
receptor file has been read). -/
inductive BoxRun where
  | fatalResidues : List Char → BoxRun
  | fatalNoMatch : BoxRun
  | crash : BoxRun
  | wrote : List Char → BoxRun
deriving DecidableEq

/-- `main` of `make_vina_box_from_residues.py` (lines 41-66), from parsed
arguments to the config file contents: parse the residue list (fatal on a bad
token), collect coordinates (fatal when no residue matches), compute the box
and emit the config text.  Every fatal or crashing outcome happens before the
config file is opened for writing. -/
def makeVinaBoxRun (receptorPath : List Char) (lines : List (List Char))
    (reslist : List Char) (padding : ℚ) : BoxRun :=
  match parse_residue_list reslist with
  | .error m => .fatalResidues m
  | .ok tg =>
    match get_residue_coords lines tg with
    | .crash => .crash
    | .noMatch => .fatalNoMatch
    | .found xs ys zs =>
      match boxFromCoords xs ys zs padding with
      | none => .crash
      | some b => .wrote (configText receptorPath b)

/-- A well-formed atom line: chain `A`, residue 1, coordinates (1, 2, 3). -/
def lnA : List Char :=
  "ATOM      1  C   LIG A   1       1.000   2.000   3.000  1.00  0.00".toList

/-- A well-formed atom line: chain `A`, residue 1, coordinates (3, 4, 5). -/
def lnB : List Char :=
  "ATOM      1  C   LIG A   1       3.000   4.000   5.000  1.00  0.00".toList

/-- A well-formed atom line whose x coordinate 9999.999 fills its 8-character
field completely. -/
def lnWide : List Char :=
  "ATOM      1  C   LIG A   1    9999.999   0.000   0.000  1.00  0.00".toList

/-- An atom line whose x field parses but whose y field does not. -/
def lnBadY : List Char :=
  "ATOM      1  C   LIG A   1       1.000  abc      3.000  1.00  0.00".toList

/-- An atom line none of whose coordinate fields parses. -/
def lnBadAll : List Char :=
  "ATOM      1  C   LIG A   1      xxxx    yyyy    zzzz    1.00  0.00".toList

/-- A non-atom record line. -/
def lnRem : List Char :=
  "REMARK generated for testing".toList

/-- A 51-byte atom line: its truncated z field `"  3.0"` still parses. -/
def lnShort : List Char :=
  "ATOM      1  C   LIG A   1       1.000   2.000  3.0".toList

example : formatFixed3 (105/10) = "10.500".toList := by decide
example : fmt8_3 (-1/2) = "  -0.500".toList := by decide
example : pyFloat? "  12.50 ".toList = some (25/2) := by decide
example : pyFloat? " -.5".toList = some (-1/2) := by decide
example : pyFloat? "1.2.3".toList = none := by decide
example : pyFloat? "  ab  ".toList = none := by decide
example : pyInt? "  -12 ".toList = some (-12) := by decide
example : pyInt? " 1.5 ".toList = none := by decide
example : pyFloat? (fmt8_3 (123456/1000)) = some (123456/1000) := by decide
example : (fmt8_3 (10000999/1000)).length = 9 := by decide

example : isAtomLine lnA = true ∧ isAtomLine lnRem = false := by decide
example : pyFloat? (pySlice lnA 30 38) = some 1 := by decide
example : collectCoords [lnRem, lnA, lnB] = ⟨[1, 3], [2, 4], [3, 5]⟩ := by decide
example : collectCoords [lnBadY] = ⟨[1], [], []⟩ := by decide
example : translateLine 1 2 3 lnA =
    "ATOM      1  C   LIG A   1       2.000   4.000   6.000  1.00  0.00".toList := by
  decide
example : recenterFile 1 2 3 [lnRem, lnBadAll] = some [lnRem, lnBadAll] := by decide
example : get_residue_coords [lnA] [(['A'], 1)] = .found [1] [2] [3] := by decide
example : get_residue_coords [lnA] [(['B'], 2)] = .noMatch := by decide
example : parse_residue_list " A : 12 , B:7".toList =
    .ok [(['A'], 12), (['B'], 7)] := by decide
example : parse_residue_list "A-12".toList = .error (resErrMsg "A-12".toList) := by decide
example : boxFromCoords [10] [10] [10] 5 = some ⟨10, 10, 10, 10, 10, 10⟩ := by decide
example : makeVinaBoxRun "rec.pdbqt".toList [lnA] "B:2".toList 5 = .fatalNoMatch := by
  decide

/-! ## Character and digit-string lemmas -/

theorem toNat_of_isDigit {c : Char} (h : c.isDigit = true) :
    48 ≤ c.toNat ∧ c.toNat ≤ 57 := by
  simp only [Char.isDigit, Bool.and_eq_true, decide_eq_true_eq] at h
  obtain ⟨h1, h2⟩ := h
  exact ⟨h1, h2⟩

theorem isWs_eq_false_of_isDigit {c : Char} (h : c.isDigit = true) :
    isWs c = false := by
  obtain ⟨h1, _⟩ := toNat_of_isDigit h
  simp only [isWs, Bool.or_eq_false_iff, beq_eq_false_iff_ne]
  refine ⟨⟨⟨?_, ?_⟩, ?_⟩, ?_⟩ <;>
    (intro he; subst he; simp [Char.toNat, UInt32.size] at h1)

theorem ne_dash_of_isDigit {c : Char} (h : c.isDigit = true) : c ≠ '-' := by
  obtain ⟨h1, _⟩ := toNat_of_isDigit h
  intro he; subst he; simp [Char.toNat, UInt32.size] at h1

theorem ne_plus_of_isDigit {c : Char} (h : c.isDigit = true) : c ≠ '+' := by
  obtain ⟨h1, _⟩ := toNat_of_isDigit h
  intro he; subst he; simp [Char.toNat, UInt32.size] at h1

theorem ne_dot_of_isDigit {c : Char} (h : c.isDigit = true) : c ≠ '.' := by
  obtain ⟨h1, _⟩ := toNat_of_isDigit h
  intro he; subst he; simp [Char.toNat, UInt32.size] at h1

theorem dropWhile_eq_self_of_all {l : List Char}
    (h : ∀ c ∈ l, isWs c = false) : l.dropWhile isWs = l := by
  cases l with
  | nil => rfl
  | cons c t => simp [List.dropWhile_cons, h c (by simp)]

theorem stripWs_eq_self {l : List Char} (h : ∀ c ∈ l, isWs c = false) :
    stripWs l = l := by
  unfold stripWs
  rw [dropWhile_eq_self_of_all h, dropWhile_eq_self_of_all, List.reverse_reverse]
  intro c hc
  exact h c (List.mem_reverse.mp hc)

theorem dropWhile_ws_replicate (k : ℕ) (l : List Char) :
    (List.replicate k ' ' ++ l).dropWhile isWs = l.dropWhile isWs := by
  induction k with
  | zero => rfl
  | succ k ih => simpa [List.replicate_succ, List.dropWhile_cons] using ih

theorem stripWs_replicate_append (k : ℕ) (l : List Char) :
    stripWs (List.replicate k ' ' ++ l) = stripWs l := by
  unfold stripWs
  rw [dropWhile_ws_replicate]


theorem digitsToNat_append_singleton (l : List Char) (c : Char) :
    digitsToNat (l ++ [c]) = 10 * digitsToNat l + (c.toNat - 48) := by
  simp [digitsToNat, List.foldl_append]

theorem foldl_digits_replicate_zero (k : ℕ) :
    List.foldl (fun a c => 10 * a + (c.toNat - 48)) 0 (List.replicate k '0') = 0 := by
  induction k with
  | zero => rfl
  | succ k ih => simpa [List.replicate_succ] using ih

theorem digitsToNat_replicate_zero_append (k : ℕ) (l : List Char) :
    digitsToNat (List.replicate k '0' ++ l) = digitsToNat l := by
  simp [digitsToNat, List.foldl_append, foldl_digits_replicate_zero]

theorem digitChar_isDigit {d : ℕ} (h : d < 10) : (Nat.digitChar d).isDigit = true := by
  revert h
  revert d
  decide

theorem digitChar_toNat {d : ℕ} (h : d < 10) : (Nat.digitChar d).toNat - 48 = d := by
  revert h
  revert d
  decide

theorem natDigitsAux_all_digits (fuel n : ℕ) :
    ∀ c ∈ natDigitsAux fuel n, c.isDigit = true := by
  induction fuel generalizing n with
  | zero => intro c hc; simp [natDigitsAux] at hc
  | succ fuel ih =>
    intro c hc
    match n with
    | 0 => simp [natDigitsAux] at hc
    | m + 1 =>
      rw [natDigitsAux] at hc
      rcases List.mem_append.mp hc with h1 | h2
      · exact ih _ c h1
      · rw [List.mem_singleton.mp h2]
        exact digitChar_isDigit (Nat.mod_lt _ (by omega))

theorem natDigitsAux_value (fuel n : ℕ) (hn : 0 < n) (hf : n ≤ fuel) :
    digitsToNat (natDigitsAux fuel n) = n := by
  induction fuel generalizing n with
  | zero => omega
  | succ fuel ih =>
    match n, hn with
    | m + 1, _ =>
      rw [natDigitsAux, digitsToNat_append_singleton,
        digitChar_toNat (Nat.mod_lt _ (by omega))]
      rcases Nat.eq_zero_or_pos ((m + 1) / 10) with h0 | hpos
      · rw [h0]
        have : (m + 1) % 10 = m + 1 := by omega
        cases fuel <;> simp [natDigitsAux, digitsToNat, this]
      · have hlt : (m + 1) / 10 < m + 1 := Nat.div_lt_self (by omega) (by omega)
        rw [ih _ hpos (by omega)]
        omega

theorem natDigitsAux_ne_nil (fuel n : ℕ) (hn : 0 < n) (hf : n ≤ fuel) :
    natDigitsAux fuel n ≠ [] := by
  match fuel, n with
  | 0, n => omega
  | fuel + 1, 0 => omega
  | fuel + 1, m + 1 =>
    rw [natDigitsAux]
    simp

theorem natDigitsAux_length (fuel n k : ℕ) (hf : n ≤ fuel) (hk : n < 10 ^ k) :
    (natDigitsAux fuel n).length ≤ k := by
  induction fuel generalizing n k with
  | zero =>
    match n with
    | 0 => simp [natDigitsAux]
    | m + 1 => omega
  | succ fuel ih =>
    match n with
    | 0 => simp [natDigitsAux]
    | m + 1 =>
      rw [natDigitsAux]
      match k with
      | 0 => omega
      | k + 1 =>
        have h1 : (m + 1) / 10 < 10 ^ k := by
          rw [Nat.div_lt_iff_lt_mul (by omega)]
          calc m + 1 < 10 ^ (k + 1) := hk
          _ = 10 ^ k * 10 := by ring
        have h2 : (m + 1) / 10 ≤ fuel := by
          have : (m + 1) / 10 < m + 1 := Nat.div_lt_self (by omega) (by omega)
          omega
        simpa using ih _ _ h2 h1

theorem natDigits_all_digits (n : ℕ) : ∀ c ∈ natDigits n, c.isDigit = true := by
  intro c hc
  unfold natDigits at hc
  by_cases h : n = 0
  · simp [h] at hc
    simp [hc]
  · simp [h] at hc
    exact natDigitsAux_all_digits n n c hc

theorem natDigits_value (n : ℕ) : digitsToNat (natDigits n) = n := by
  unfold natDigits
  by_cases h : n = 0
  · simp [h, digitsToNat]
  · simp only [h, if_false]
    exact natDigitsAux_value n n (by omega) le_rfl

theorem natDigits_ne_nil (n : ℕ) : natDigits n ≠ [] := by
  unfold natDigits
  by_cases h : n = 0
  · simp [h]
  · simp only [h, if_false]
    exact natDigitsAux_ne_nil n n (by omega) le_rfl

theorem natDigits_length_le (n k : ℕ) (hk : n < 10 ^ k) (h0 : 0 < k) :
    (natDigits n).length ≤ k := by
  unfold natDigits
  by_cases h : n = 0
  · simpa [h] using h0
  · simp only [h, if_false]
    exact natDigitsAux_length n n k le_rfl hk

/-! ## Parsing the formatter's output -/

theorem splitAtDot_no_dot {l : List Char} (h : '.' ∉ l) :
    splitAtDot l = (l, none) := by
  induction l with
  | nil => rfl
  | cons c t ih =>
    have hc : c ≠ '.' := by intro he; exact h (by simp [he])
    have ht : '.' ∉ t := by intro he; exact h (by simp [he])
    simp [splitAtDot, hc, ih ht]

theorem splitAtDot_append {A B : List Char} (h : '.' ∉ A) :
    splitAtDot (A ++ '.' :: B) = (A, some B) := by
  induction A with
  | nil => simp [splitAtDot]
  | cons c t ih =>
    have hc : c ≠ '.' := by intro he; exact h (by simp [he])
    have ht : '.' ∉ t := by intro he; exact h (by simp [he])
    simp [splitAtDot, hc, ih ht]

theorem no_dot_of_all_digits {l : List Char} (h : ∀ c ∈ l, c.isDigit = true) :
    '.' ∉ l := by
  intro hmem
  exact ne_dot_of_isDigit (h _ hmem) rfl

theorem allDigits_of_forall {l : List Char} (h : ∀ c ∈ l, c.isDigit = true) :
    allDigits l = true := by
  simpa [allDigits, List.all_eq_true] using h

theorem parseMantissa_digits_frac {ip fp : List Char}
    (hip : ∀ c ∈ ip, c.isDigit = true) (hfp : ∀ c ∈ fp, c.isDigit = true)
    (hne : ip ++ fp ≠ []) :
    parseMantissa (ip ++ '.' :: fp) =
      some ((digitsToNat ip : ℚ) + (digitsToNat fp : ℚ) / 10 ^ fp.length) := by
  unfold parseMantissa
  rw [splitAtDot_append (no_dot_of_all_digits hip)]
  simp [no_dot_of_all_digits hfp, hne, allDigits_of_forall hip,
    allDigits_of_forall hfp]

theorem padLeft_length (c : Char) (w : ℕ) (l : List Char) :
    (padLeft c w l).length = max w l.length := by
  simp [padLeft]
  omega

theorem padLeft_zero_digits {l : List Char} (w : ℕ)
    (h : ∀ c ∈ l, c.isDigit = true) :
    ∀ c ∈ padLeft '0' w l, c.isDigit = true := by
  intro c hc
  rcases List.mem_append.mp hc with h1 | h2
  · rw [List.eq_of_mem_replicate h1]
    decide
  · exact h c h2

/-- The fraction part written by `formatFixed3`: three digit characters. -/
theorem formatFixed3_frac_facts (a : ℕ) :
    (padLeft '0' 3 (natDigits (a % 1000))).length = 3 ∧
      (∀ c ∈ padLeft '0' 3 (natDigits (a % 1000)), c.isDigit = true) := by
  have hlt : a % 1000 < 10 ^ 3 := by
    have := Nat.mod_lt a (show 0 < 1000 by omega)
    omega
  have hlen := natDigits_length_le (a % 1000) 3 hlt (by omega)
  constructor
  · rw [padLeft_length]
    omega
  · exact padLeft_zero_digits 3 (natDigits_all_digits _)

theorem cast_natAbs_div_part (a : ℕ) :
    ((a / 1000 : ℕ) : ℚ) + ((a % 1000 : ℕ) : ℚ) / 10 ^ (3 : ℕ) = (a : ℚ) / 1000 := by
  have h : ((1000 : ℚ)) * ((a / 1000 : ℕ) : ℚ) + ((a % 1000 : ℕ) : ℚ) = (a : ℚ) := by
    exact_mod_cast congrArg (fun n : ℕ => (n : ℚ)) (Nat.div_add_mod a 1000)
  have h10 : ((10 : ℚ)) ^ (3 : ℕ) = 1000 := by norm_num
  rw [h10]
  field_simp
  linarith

/-- Parsing the output of `formatFixed3` (with any amount of left padding by
spaces) recovers exactly the rounded value. -/
theorem pyFloat_replicate_formatFixed3 (k : ℕ) (q : ℚ) :
    pyFloat? (List.replicate k ' ' ++ formatFixed3 q) = some (round3 q) := by
  have hfr := formatFixed3_frac_facts (round (1000 * q)).natAbs
  obtain ⟨hfplen, hfpdig⟩ := hfr
  set n : ℤ := round (1000 * q) with hn
  set a : ℕ := n.natAbs with ha
  set ip : List Char := natDigits (a / 1000) with hipdef
  set fp : List Char := padLeft '0' 3 (natDigits (a % 1000)) with hfpdef
  have hipdig : ∀ c ∈ ip, c.isDigit = true := natDigits_all_digits _
  have hipne : ip ≠ [] := natDigits_ne_nil _
  have hne : ip ++ fp ≠ [] := by
    intro h
    exact hipne (List.append_eq_nil.mp h).1
  have hmant : parseMantissa (ip ++ '.' :: fp) =
      some ((digitsToNat ip : ℚ) + (digitsToNat fp : ℚ) / 10 ^ fp.length) :=
    parseMantissa_digits_frac hipdig hfpdig hne
  have hval : (digitsToNat ip : ℚ) + (digitsToNat fp : ℚ) / 10 ^ fp.length =
      (a : ℚ) / 1000 := by
    have h1 : digitsToNat ip = a / 1000 := natDigits_value _
    have h2 : digitsToNat fp = a % 1000 := by
      rw [hfpdef, padLeft, digitsToNat_replicate_zero_append, natDigits_value]
    rw [h1, h2, hfplen]
    exact cast_natAbs_div_part a
  have hbody : ∀ c ∈ ip ++ '.' :: fp, isWs c = false := by
    intro c hc
    rcases List.mem_append.mp hc with h1 | h2
    · exact isWs_eq_false_of_isDigit (hipdig c h1)
    · rcases List.mem_cons.mp h2 with h3 | h4
      · rw [h3]; decide
      · exact isWs_eq_false_of_isDigit (hfpdig c h4)
  have hF : formatFixed3 q =
      (if n < 0 then ['-'] else []) ++ ip ++ '.' :: fp := by
    rw [formatFixed3]
  by_cases hneg : n < 0
  · have hF2 : formatFixed3 q = '-' :: (ip ++ '.' :: fp) := by
      rw [hF, if_pos hneg]
      rfl
    have hstrip : stripWs (List.replicate k ' ' ++ formatFixed3 q) =
        '-' :: (ip ++ '.' :: fp) := by
      rw [stripWs_replicate_append, hF2, stripWs_eq_self]
      intro c hc
      rcases List.mem_cons.mp hc with h1 | h2
      · rw [h1]; decide
      · exact hbody c h2
    have hz : (a : ℤ) = -n := by rw [ha]; omega
    have hca : (a : ℚ) = -(n : ℚ) := by exact_mod_cast hz
    rw [pyFloat?, hstrip]
    simp only [pyFloatCore, if_pos, hmant, Option.map_some', hval]
    rw [round3, ← hn, hca]
    congr 1
    ring
  · obtain ⟨c0, ip2, hip2⟩ := List.exists_cons_of_ne_nil hipne
    have hc0 : c0.isDigit = true := hipdig c0 (by rw [hip2]; simp)
    have hF2 : formatFixed3 q = c0 :: (ip2 ++ '.' :: fp) := by
      rw [hF, if_neg hneg, hip2]
      rfl
    have hstrip : stripWs (List.replicate k ' ' ++ formatFixed3 q) =
        c0 :: (ip2 ++ '.' :: fp) := by
      rw [stripWs_replicate_append, hF2, stripWs_eq_self]
      intro c hc
      have : c ∈ ip ++ '.' :: fp := by
        rw [hip2]
        simpa using hc
      exact hbody c this
    rw [pyFloat?, hstrip]
    simp only [pyFloatCore]
    rw [if_neg (ne_dash_of_isDigit hc0), if_neg (ne_plus_of_isDigit hc0)]
    have hback : c0 :: (ip2 ++ '.' :: fp) = ip ++ '.' :: fp := by
      rw [hip2]
      rfl
    rw [hback, hmant, hval]
    have hz : (a : ℤ) = n := by rw [ha]; omega
    have hca : (a : ℚ) = (n : ℚ) := by exact_mod_cast hz
    rw [round3, ← hn, hca]

/-- Parsing the output of `fmt8_3` recovers exactly the rounded value. -/
theorem pyFloat_fmt8_3 (q : ℚ) : pyFloat? (fmt8_3 q) = some (round3 q) := by
  rw [fmt8_3, padLeft]
  exact pyFloat_replicate_formatFixed3 _ q

/-- Rounding to three decimals moves a value by at most `1/2000`. -/
theorem round3_close (q : ℚ) : |round3 q - q| ≤ 1 / 2000 := by
  rw [round3]
  have h := abs_sub_round (1000 * q)
  have h1000 : (0 : ℚ) < 1000 := by norm_num
  rw [show ((round (1000 * q) : ℤ) : ℚ) / 1000 - q =
      ((round (1000 * q) : ℤ) - 1000 * q) / 1000 by ring]
  rw [abs_div, abs_of_pos h1000]
  rw [div_le_div_iff₀ h1000 (by norm_num)]
  rw [abs_sub_comm] at h
  linarith

/-! ## Shape of the rewritten fields and lines -/

theorem fmt8_3_length_ge (q : ℚ) : 8 ≤ (fmt8_3 q).length := by
  rw [fmt8_3, padLeft_length]
  omega

theorem fmt8_3_length_eq {q : ℚ} (h : (formatFixed3 q).length ≤ 8) :
    (fmt8_3 q).length = 8 := by
  rw [fmt8_3, padLeft_length]
  omega

theorem formatFixed3_shape (q : ℚ) :
    ∃ s d1 d2 d3, formatFixed3 q = s ++ ['.', d1, d2, d3] ∧
      d1.isDigit = true ∧ d2.isDigit = true ∧ d3.isDigit = true ∧ s ≠ [] := by
  obtain ⟨hlen, hdig⟩ := formatFixed3_frac_facts (round (1000 * q)).natAbs
  obtain ⟨d1, d2, d3, hfp⟩ := List.length_eq_three.mp hlen
  refine ⟨(if round (1000 * q) < 0 then ['-'] else []) ++
      natDigits ((round (1000 * q)).natAbs / 1000), d1, d2, d3, ?_, ?_, ?_, ?_, ?_⟩
  · rw [formatFixed3, hfp, List.append_assoc]
  · exact hdig d1 (by rw [hfp]; simp)
  · exact hdig d2 (by rw [hfp]; simp)
  · exact hdig d3 (by rw [hfp]; simp)
  · intro h
    exact natDigits_ne_nil _ (List.append_eq_nil.mp h).2

theorem pyFloat_nil : pyFloat? [] = none := rfl

theorem pySlice_parse_lt {ln : List Char} {a b : ℕ} {v : ℚ}
    (h : pyFloat? (pySlice ln a b) = some v) : a < ln.length := by
  by_contra hc
  have hd : ln.drop a = [] := List.drop_eq_nil_of_le (by omega)
  rw [pySlice, hd] at h
  simp [pyFloat_nil] at h

theorem take_append_of_length {A rest : List Char} {k : ℕ} (h : A.length = k) :
    (A ++ rest).take k = A := by
  subst h
  exact List.take_left A rest

theorem drop_append_of_length {A rest : List Char} {k : ℕ} (h : A.length = k) :
    (A ++ rest).drop k = rest := by
  subst h
  exact List.drop_left A rest

theorem translateLine_parsed (dx dy dz : ℚ) {x y z : ℚ} {ln : List Char}
    (hatom : isAtomLine ln = true)
    (hx : pyFloat? (pySlice ln 30 38) = some x)
    (hy : pyFloat? (pySlice ln 38 46) = some y)
    (hz : pyFloat? (pySlice ln 46 54) = some z) :
    translateLine dx dy dz ln =
      ln.take 30 ++ fmt8_3 (x + dx) ++ fmt8_3 (y + dy) ++ fmt8_3 (z + dz) ++
        ln.drop 54 := by
  rw [translateLine, if_pos (by rw [hatom]), hx, hy, hz]

theorem translateLine_skip {dx dy dz : ℚ} {ln : List Char}
    (h : isAtomLine ln = false ∨ pyFloat? (pySlice ln 30 38) = none ∨
      pyFloat? (pySlice ln 38 46) = none ∨ pyFloat? (pySlice ln 46 54) = none) :
    translateLine dx dy dz ln = ln := by
  rw [translateLine]
  rcases h with h | h | h | h
  · rw [if_neg (by rw [h]; exact Bool.false_ne_true)]
  · by_cases ha : isAtomLine ln = true
    · rw [if_pos (by rw [ha]), h]
    · rw [if_neg ha]
  · by_cases ha : isAtomLine ln = true
    · rw [if_pos (by rw [ha])]
      cases hx : pyFloat? (pySlice ln 30 38) <;> simp [h]
    · rw [if_neg ha]
  · by_cases ha : isAtomLine ln = true
    · rw [if_pos (by rw [ha])]
      cases hx : pyFloat? (pySlice ln 30 38) <;>
        cases hy : pyFloat? (pySlice ln 38 46) <;> simp [h]
    · rw [if_neg ha]

theorem rewritten_take_30 {A f1 f2 f3 B : List Char} (hA : A.length = 30) :
    (A ++ f1 ++ f2 ++ f3 ++ B).take 30 = A := by
  rw [List.append_assoc, List.append_assoc, List.append_assoc]
  exact take_append_of_length hA

theorem rewritten_drop_30 {A f1 f2 f3 B : List Char} (hA : A.length = 30) :
    (A ++ f1 ++ f2 ++ f3 ++ B).drop 30 = f1 ++ f2 ++ f3 ++ B := by
  rw [List.append_assoc, List.append_assoc, List.append_assoc,
    drop_append_of_length hA, List.append_assoc, List.append_assoc]

theorem rewritten_slice_x {A f1 f2 f3 B : List Char} (hA : A.length = 30)
    (h1 : f1.length = 8) :
    pySlice (A ++ f1 ++ f2 ++ f3 ++ B) 30 38 = f1 := by
  rw [pySlice, rewritten_drop_30 hA, List.append_assoc, List.append_assoc]
  exact take_append_of_length h1

theorem drop_add_split {α : Type} (m n : ℕ) (l : List α) :
    List.drop (m + n) l = List.drop n (List.drop m l) := by
  rw [List.drop_drop, Nat.add_comm]

theorem rewritten_slice_y {A f1 f2 f3 B : List Char} (hA : A.length = 30)
    (h1 : f1.length = 8) (h2 : f2.length = 8) :
    pySlice (A ++ f1 ++ f2 ++ f3 ++ B) 38 46 = f2 := by
  rw [pySlice]
  rw [show (38 : ℕ) = 30 + 8 by rfl, drop_add_split, rewritten_drop_30 hA]
  rw [List.append_assoc, List.append_assoc, drop_append_of_length h1]
  norm_num
  exact take_append_of_length h2

theorem rewritten_slice_z {A f1 f2 f3 B : List Char} (hA : A.length = 30)
    (h1 : f1.length = 8) (h2 : f2.length = 8) (h3 : f3.length = 8) :
    pySlice (A ++ f1 ++ f2 ++ f3 ++ B) 46 54 = f3 := by
  rw [pySlice]
  rw [show (46 : ℕ) = 30 + (8 + 8) by rfl, drop_add_split, rewritten_drop_30 hA]
  rw [drop_add_split]
  rw [List.append_assoc, List.append_assoc, drop_append_of_length h1,
    drop_append_of_length h2]
  norm_num
  exact take_append_of_length h3

theorem rewritten_drop_54 {A f1 f2 f3 B : List Char} (hA : A.length = 30)
    (h1 : f1.length = 8) (h2 : f2.length = 8) (h3 : f3.length = 8) :
    (A ++ f1 ++ f2 ++ f3 ++ B).drop 54 = B := by
  rw [show (54 : ℕ) = 30 + (8 + (8 + 8)) by rfl]
  rw [drop_add_split, rewritten_drop_30 hA, drop_add_split, drop_add_split]
  rw [List.append_assoc, List.append_assoc, drop_append_of_length h1,
    drop_append_of_length h2, drop_append_of_length h3]

theorem rewritten_length {A f1 f2 f3 B : List Char} (hA : A.length = 30)
    (h1 : f1.length = 8) (h2 : f2.length = 8) (h3 : f3.length = 8) :
    (A ++ f1 ++ f2 ++ f3 ++ B).length = 54 + B.length := by
  simp [hA, h1, h2, h3]
  omega

/-- A slice that ends at or before offset 30 only depends on the first 30
characters. -/
theorem pySlice_le_30 {l : List Char} {a b : ℕ} (hb : b ≤ 30) :
    pySlice l a b = pySlice (l.take 30) a b := by
  rw [pySlice, pySlice]
  rcases le_or_lt a b with hab | hab
  · rw [List.drop_take]
    rw [List.take_take]
    congr 1
    omega
  · have : b - a = 0 := by omega
    simp [this]

theorem pySlice_eq_of_take_30 {r ln : List Char} {a b : ℕ} (hb : b ≤ 30)
    (h : r.take 30 = ln.take 30) : pySlice r a b = pySlice ln a b := by
  rw [pySlice_le_30 hb, h, ← pySlice_le_30 hb]

theorem isPrefixOf_take_30 {P l : List Char} (h : P.length ≤ 30) :
    P.isPrefixOf (l.take 30) = P.isPrefixOf l := by
  cases hb : P.isPrefixOf l with
  | true =>
    have hp : P <+: l := List.isPrefixOf_iff_prefix.mp hb
    have hp2 : P <+: l.take 30 := by
      rw [List.prefix_iff_eq_take] at hp ⊢
      rw [List.take_take, min_eq_left h]
      exact hp
    exact List.isPrefixOf_iff_prefix.mpr hp2
  | false =>
    cases hb2 : P.isPrefixOf (l.take 30) with
    | true =>
      have hp2 : P <+: l.take 30 := List.isPrefixOf_iff_prefix.mp hb2
      have hp : P <+: l := hp2.trans (List.take_prefix 30 l)
      rw [List.isPrefixOf_iff_prefix.mpr hp] at hb
      exact hb
    | false => rfl

theorem isAtomLine_take_30 (l : List Char) :
    isAtomLine (l.take 30) = isAtomLine l := by
  rw [isAtomLine, isAtomLine, isPrefixOf_take_30 (by decide),
    isPrefixOf_take_30 (by decide)]

theorem formatFixed3_no_ws (q : ℚ) : ∀ c ∈ formatFixed3 q, isWs c = false := by
  intro c hc
  rw [formatFixed3] at hc
  simp only [List.mem_append, List.mem_cons] at hc
  rcases hc with (h1 | h2) | h3 | h4
  · by_cases hneg : round (1000 * q) < 0
    · rw [if_pos hneg] at h1
      rw [List.mem_singleton.mp h1]
      decide
    · rw [if_neg hneg] at h1
      simp at h1
  · exact isWs_eq_false_of_isDigit (natDigits_all_digits _ c h2)
  · rw [h3]
    decide
  · exact isWs_eq_false_of_isDigit
      (padLeft_zero_digits 3 (natDigits_all_digits _) c h4)

/-- An 8-character-style right-justified fixed-point field: space padding on
the left, then a non-blank body that ends in a dot and exactly three digits. -/
def rightJust3 (field : List Char) : Prop :=
  ∃ k body, field = List.replicate k ' ' ++ body ∧ body ≠ [] ∧
    (∀ c ∈ body, isWs c = false) ∧
    ∃ s d1 d2 d3, body = s ++ ['.', d1, d2, d3] ∧
      d1.isDigit = true ∧ d2.isDigit = true ∧ d3.isDigit = true

theorem rightJust3_fmt8_3 (q : ℚ) : rightJust3 (fmt8_3 q) := by
  obtain ⟨s, d1, d2, d3, hshape, hd1, hd2, hd3, hs⟩ := formatFixed3_shape q
  refine ⟨8 - (formatFixed3 q).length, formatFixed3 q, rfl, ?_, formatFixed3_no_ws q,
    s, d1, d2, d3, hshape, hd1, hd2, hd3⟩
  rw [hshape]
  intro h
  have := congrArg List.length h
  simp at this

/-! ## Claim C1 -/

/-- C1 fails as stated: the claim asserts that every rewritten atom line has
the three replaced fields of exactly 8 characters and keeps the source line's
total length, but `%8.3f` is only a minimum width.  `lnWide` carries x
coordinate 9999.999; translating by (+1, 0, 0) makes the x field
`10000.999` (9 characters), so the rewritten line is longer than its source
even though the line is a rewritten atom-record line (it starts with `ATOM`
and all three coordinate fields parse).  Second input: the 51-byte `lnShort`
parses fully (the z field is the truncated `"  3.0"`) yet its rewrite is
padded out to 54 bytes, again changing the line length. -/
theorem C1_counterexample :
    (isAtomLine lnWide = true ∧
      pyFloat? (pySlice lnWide 30 38) = some (9999999 / 1000) ∧
      pyFloat? (pySlice lnWide 38 46) = some 0 ∧
      pyFloat? (pySlice lnWide 46 54) = some 0 ∧
      (translateLine 1 0 0 lnWide).length ≠ lnWide.length) ∧
    (isAtomLine lnShort = true ∧
      pyFloat? (pySlice lnShort 30 38) = some 1 ∧
      pyFloat? (pySlice lnShort 38 46) = some 2 ∧
      pyFloat? (pySlice lnShort 46 54) = some 3 ∧
      (translateLine 0 0 0 lnShort).length ≠ lnShort.length) := by
  decide

/-- C1 (amended): for every atom-record line rewritten by the coordinate
translator that is at least 54 bytes long and whose three translated
coordinates each fit the 8-character field at 3 decimals, the bytes at
offsets [0,30) and from offset 54 on are identical to the source line, each
replaced field is exactly the 8-character right-justified 3-decimal rendering
of the translated coordinate, and the total length is preserved. -/
theorem C1_rewrite_frame (dx dy dz x y z : ℚ) (ln : List Char)
    (hatom : isAtomLine ln = true)
    (hx : pyFloat? (pySlice ln 30 38) = some x)
    (hy : pyFloat? (pySlice ln 38 46) = some y)
    (hz : pyFloat? (pySlice ln 46 54) = some z)
    (hlen : 54 ≤ ln.length)
    (hfx : (formatFixed3 (x + dx)).length ≤ 8)
    (hfy : (formatFixed3 (y + dy)).length ≤ 8)
    (hfz : (formatFixed3 (z + dz)).length ≤ 8) :
    (translateLine dx dy dz ln).take 30 = ln.take 30 ∧
    (translateLine dx dy dz ln).drop 54 = ln.drop 54 ∧
    pySlice (translateLine dx dy dz ln) 30 38 = fmt8_3 (x + dx) ∧
    pySlice (translateLine dx dy dz ln) 38 46 = fmt8_3 (y + dy) ∧
    pySlice (translateLine dx dy dz ln) 46 54 = fmt8_3 (z + dz) ∧
    (fmt8_3 (x + dx)).length = 8 ∧ (fmt8_3 (y + dy)).length = 8 ∧
    (fmt8_3 (z + dz)).length = 8 ∧
    rightJust3 (fmt8_3 (x + dx)) ∧ rightJust3 (fmt8_3 (y + dy)) ∧
    rightJust3 (fmt8_3 (z + dz)) ∧
    (translateLine dx dy dz ln).length = ln.length := by
  have hr := translateLine_parsed dx dy dz hatom hx hy hz
  have hA : (ln.take 30).length = 30 := by
    rw [List.length_take]
    omega
  have h1 : (fmt8_3 (x + dx)).length = 8 := fmt8_3_length_eq hfx
  have h2 : (fmt8_3 (y + dy)).length = 8 := fmt8_3_length_eq hfy
  have h3 : (fmt8_3 (z + dz)).length = 8 := fmt8_3_length_eq hfz
  rw [hr]
  refine ⟨?_, ?_, ?_, ?_, ?_, h1, h2, h3, rightJust3_fmt8_3 _, rightJust3_fmt8_3 _,
    rightJust3_fmt8_3 _, ?_⟩
  · rw [rewritten_take_30 hA]
  · rw [rewritten_drop_54 hA h1 h2 h3]
  · exact rewritten_slice_x hA h1
  · exact rewritten_slice_y hA h1 h2
  · exact rewritten_slice_z hA h1 h2 h3
  · rw [rewritten_length hA h1 h2 h3, List.length_drop]
    omega

/-- Witness for C1: translating `lnA` (coordinates (1,2,3), 66 bytes) by
(+1, +2, +3). -/
theorem C1_witness :
    (translateLine 1 2 3 lnA).take 30 = lnA.take 30 ∧
    (translateLine 1 2 3 lnA).drop 54 = lnA.drop 54 ∧
    pySlice (translateLine 1 2 3 lnA) 30 38 = fmt8_3 (1 + 1) ∧
    pySlice (translateLine 1 2 3 lnA) 38 46 = fmt8_3 (2 + 2) ∧
    pySlice (translateLine 1 2 3 lnA) 46 54 = fmt8_3 (3 + 3) ∧
    (fmt8_3 (1 + 1)).length = 8 ∧ (fmt8_3 (2 + 2)).length = 8 ∧
    (fmt8_3 (3 + 3)).length = 8 ∧
    rightJust3 (fmt8_3 (1 + 1)) ∧ rightJust3 (fmt8_3 (2 + 2)) ∧
    rightJust3 (fmt8_3 (3 + 3)) ∧
    (translateLine 1 2 3 lnA).length = lnA.length :=
  C1_rewrite_frame 1 2 3 1 2 3 lnA (by decide) (by decide) (by decide) (by decide)
    (by decide) (by decide) (by decide) (by decide)

/-! ## Claim C8 -/

/-- C8 fails as stated: translating `lnWide` by (+1, 0, 0) writes the x field
as the 9-character `10000.999`, which shifts the columns; re-parsing the
rewritten line's [30,38) field yields 10000.99, which differs from the
translated coordinate 10000.999 by more than any 3-decimal rounding
(1/2000) allows. -/
theorem C8_counterexample :
    isAtomLine lnWide = true ∧
    pyFloat? (pySlice lnWide 30 38) = some (9999999 / 1000) ∧
    pyFloat? (pySlice (translateLine 1 0 0 lnWide) 30 38) =
      some (1000099 / 100) ∧
    ¬|(1000099 / 100 : ℚ) - (9999999 / 1000 + 1)| ≤ 1 / 2000 := by
  decide

/-- C8 (amended): whenever the three translated coordinates each fit their
8-character field, re-parsing a rewritten line with the fixed-column parser
recovers each translated coordinate up to 3-decimal rounding (exactly the
value rounded to 3 decimals, hence within 1/2000), and the chain-id byte at
offset 21, the residue-number field at offsets [22,26) and the ATOM/HETATM
record kind parse identically to the original line. -/
theorem C8_roundtrip (dx dy dz x y z : ℚ) (ln : List Char)
    (hatom : isAtomLine ln = true)
    (hx : pyFloat? (pySlice ln 30 38) = some x)
    (hy : pyFloat? (pySlice ln 38 46) = some y)
    (hz : pyFloat? (pySlice ln 46 54) = some z)
    (hfx : (formatFixed3 (x + dx)).length ≤ 8)
    (hfy : (formatFixed3 (y + dy)).length ≤ 8)
    (hfz : (formatFixed3 (z + dz)).length ≤ 8) :
    pyFloat? (pySlice (translateLine dx dy dz ln) 30 38) = some (round3 (x + dx)) ∧
    pyFloat? (pySlice (translateLine dx dy dz ln) 38 46) = some (round3 (y + dy)) ∧
    pyFloat? (pySlice (translateLine dx dy dz ln) 46 54) = some (round3 (z + dz)) ∧
    |round3 (x + dx) - (x + dx)| ≤ 1 / 2000 ∧
    |round3 (y + dy) - (y + dy)| ≤ 1 / 2000 ∧
    |round3 (z + dz) - (z + dz)| ≤ 1 / 2000 ∧
    pySlice (translateLine dx dy dz ln) 21 22 = pySlice ln 21 22 ∧
    pyInt? (pySlice (translateLine dx dy dz ln) 22 26) =
      pyInt? (pySlice ln 22 26) ∧
    isAtomLine (translateLine dx dy dz ln) = isAtomLine ln := by
  have hr := translateLine_parsed dx dy dz hatom hx hy hz
  have h30 : 30 < ln.length := pySlice_parse_lt hx
  have hA : (ln.take 30).length = 30 := by
    rw [List.length_take]
    omega
  have h1 : (fmt8_3 (x + dx)).length = 8 := fmt8_3_length_eq hfx
  have h2 : (fmt8_3 (y + dy)).length = 8 := fmt8_3_length_eq hfy
  have h3 : (fmt8_3 (z + dz)).length = 8 := fmt8_3_length_eq hfz
  have htake : (translateLine dx dy dz ln).take 30 = ln.take 30 := by
    rw [hr, rewritten_take_30 hA]
  refine ⟨?_, ?_, ?_, round3_close _, round3_close _, round3_close _, ?_, ?_, ?_⟩
  · rw [hr, rewritten_slice_x hA h1, pyFloat_fmt8_3]
  · rw [hr, rewritten_slice_y hA h1 h2, pyFloat_fmt8_3]
  · rw [hr, rewritten_slice_z hA h1 h2 h3, pyFloat_fmt8_3]
  · exact pySlice_eq_of_take_30 (by omega) htake
  · rw [pySlice_eq_of_take_30 (by omega) htake]
  · rw [← isAtomLine_take_30 (translateLine dx dy dz ln), htake,
      isAtomLine_take_30]

/-- Witness for C8: translating `lnA` by (+1, +2, +3). -/
theorem C8_witness :
    pyFloat? (pySlice (translateLine 1 2 3 lnA) 30 38) = some (round3 (1 + 1)) ∧
    pyFloat? (pySlice (translateLine 1 2 3 lnA) 38 46) = some (round3 (2 + 2)) ∧
    pyFloat? (pySlice (translateLine 1 2 3 lnA) 46 54) = some (round3 (3 + 3)) ∧
    |round3 (1 + 1) - (1 + 1 : ℚ)| ≤ 1 / 2000 ∧
    |round3 (2 + 2) - (2 + 2 : ℚ)| ≤ 1 / 2000 ∧
    |round3 (3 + 3) - (3 + 3 : ℚ)| ≤ 1 / 2000 ∧
    pySlice (translateLine 1 2 3 lnA) 21 22 = pySlice lnA 21 22 ∧
    pyInt? (pySlice (translateLine 1 2 3 lnA) 22 26) = pyInt? (pySlice lnA 22 26) ∧
    isAtomLine (translateLine 1 2 3 lnA) = isAtomLine lnA :=
  C8_roundtrip 1 2 3 1 2 3 lnA (by decide) (by decide) (by decide) (by decide)
    (by decide) (by decide) (by decide)

/-! ## Claim C2 -/

theorem foldlMin_mem (x : ℚ) (xs : List ℚ) : foldlMin x xs ∈ x :: xs := by
  induction xs generalizing x with
  | nil => simp [foldlMin]
  | cons y ys ih =>
    have hstep : foldlMin x (y :: ys) = foldlMin (min x y) ys := rfl
    rw [hstep]
    rcases List.mem_cons.mp (ih (min x y)) with h1 | h1
    · rw [h1]
      rcases min_choice x y with hm | hm <;> simp [hm]
    · simp [h1]

theorem foldlMin_le (x : ℚ) (xs : List ℚ) : ∀ a ∈ x :: xs, foldlMin x xs ≤ a := by
  induction xs generalizing x with
  | nil =>
    intro a ha
    simp at ha
    simp [foldlMin, ha]
  | cons y ys ih =>
    intro a ha
    rcases List.mem_cons.mp ha with h1 | h1
    · rw [h1]
      calc foldlMin x (y :: ys) = foldlMin (min x y) ys := rfl
      _ ≤ min x y := ih _ _ (by simp)
      _ ≤ x := min_le_left _ _
    · rcases List.mem_cons.mp h1 with h2 | h2
      · rw [h2]
        calc foldlMin x (y :: ys) = foldlMin (min x y) ys := rfl
        _ ≤ min x y := ih _ _ (by simp)
        _ ≤ y := min_le_right _ _
      · calc foldlMin x (y :: ys) = foldlMin (min x y) ys := rfl
        _ ≤ a := ih _ _ (by simp [h2])

theorem foldlMax_mem (x : ℚ) (xs : List ℚ) : foldlMax x xs ∈ x :: xs := by
  induction xs generalizing x with
  | nil => simp [foldlMax]
  | cons y ys ih =>
    have hstep : foldlMax x (y :: ys) = foldlMax (max x y) ys := rfl
    rw [hstep]
    rcases List.mem_cons.mp (ih (max x y)) with h1 | h1
    · rw [h1]
      rcases max_choice x y with hm | hm <;> simp [hm]
    · simp [h1]

theorem foldlMax_ge (x : ℚ) (xs : List ℚ) : ∀ a ∈ x :: xs, a ≤ foldlMax x xs := by
  induction xs generalizing x with
  | nil =>
    intro a ha
    simp at ha
    simp [foldlMax, ha]
  | cons y ys ih =>
    intro a ha
    rcases List.mem_cons.mp ha with h1 | h1
    · rw [h1]
      calc x ≤ max x y := le_max_left _ _
      _ ≤ foldlMax (max x y) ys := ih _ _ (by simp)
      _ = foldlMax x (y :: ys) := rfl
    · rcases List.mem_cons.mp h1 with h2 | h2
      · rw [h2]
        calc y ≤ max x y := le_max_right _ _
        _ ≤ foldlMax (max x y) ys := ih _ _ (by simp)
        _ = foldlMax x (y :: ys) := rfl
      · calc a ≤ foldlMax (max x y) ys := ih _ _ (by simp [h2])
        _ = foldlMax x (y :: ys) := rfl

/-- C2: for every non-empty selected point set and padding, the emitted box
satisfies, independently per axis, `center = (min + max) / 2` and
`size = (max - min) + 2 * padding` (min and max characterized extensionally as
attained bounds), with `2 * padding ≤ size`; the computation always succeeds
(no division is performed on the point count, so the single-point case is
exact). -/
theorem C2_box (xs ys zs : List ℚ) (p : ℚ) (hx : xs ≠ []) (hy : ys ≠ [])
    (hz : zs ≠ []) (hp : 0 ≤ p) :
    ∃ b, boxFromCoords xs ys zs p = some b ∧
      (∃ mn mx, mn ∈ xs ∧ mx ∈ xs ∧ (∀ a ∈ xs, mn ≤ a ∧ a ≤ mx) ∧
        b.cx = (mn + mx) / 2 ∧ b.sx = (mx - mn) + 2 * p) ∧
      (∃ mn mx, mn ∈ ys ∧ mx ∈ ys ∧ (∀ a ∈ ys, mn ≤ a ∧ a ≤ mx) ∧
        b.cy = (mn + mx) / 2 ∧ b.sy = (mx - mn) + 2 * p) ∧
      (∃ mn mx, mn ∈ zs ∧ mx ∈ zs ∧ (∀ a ∈ zs, mn ≤ a ∧ a ≤ mx) ∧
        b.cz = (mn + mx) / 2 ∧ b.sz = (mx - mn) + 2 * p) ∧
      2 * p ≤ b.sx ∧ 2 * p ≤ b.sy ∧ 2 * p ≤ b.sz := by
  obtain ⟨x0, xr, rfl⟩ := List.exists_cons_of_ne_nil hx
  obtain ⟨y0, yr, rfl⟩ := List.exists_cons_of_ne_nil hy
  obtain ⟨z0, zr, rfl⟩ := List.exists_cons_of_ne_nil hz
  refine ⟨_, rfl, ?_, ?_, ?_, ?_, ?_, ?_⟩
  · exact ⟨foldlMin x0 xr, foldlMax x0 xr, foldlMin_mem x0 xr, foldlMax_mem x0 xr,
      fun a ha => ⟨foldlMin_le x0 xr a ha, foldlMax_ge x0 xr a ha⟩, rfl, rfl⟩
  · exact ⟨foldlMin y0 yr, foldlMax y0 yr, foldlMin_mem y0 yr, foldlMax_mem y0 yr,
      fun a ha => ⟨foldlMin_le y0 yr a ha, foldlMax_ge y0 yr a ha⟩, rfl, rfl⟩
  · exact ⟨foldlMin z0 zr, foldlMax z0 zr, foldlMin_mem z0 zr, foldlMax_mem z0 zr,
      fun a ha => ⟨foldlMin_le z0 zr a ha, foldlMax_ge z0 zr a ha⟩, rfl, rfl⟩
  · have h := foldlMax_ge x0 xr (foldlMin x0 xr) (foldlMin_mem x0 xr)
    show 2 * p ≤ foldlMax x0 xr - foldlMin x0 xr + 2 * p
    linarith
  · have h := foldlMax_ge y0 yr (foldlMin y0 yr) (foldlMin_mem y0 yr)
    show 2 * p ≤ foldlMax y0 yr - foldlMin y0 yr + 2 * p
    linarith
  · have h := foldlMax_ge z0 zr (foldlMin z0 zr) (foldlMin_mem z0 zr)
    show 2 * p ≤ foldlMax z0 zr - foldlMin z0 zr + 2 * p
    linarith

/-- Witness for C2: the single point (10, 10, 10) with padding 5 — the
degenerate case from the spec, whose box has center (10,10,10) and size
(10,10,10). -/
theorem C2_witness :
    (∃ b, boxFromCoords [10] [10] [10] 5 = some b ∧
      (∃ mn mx, mn ∈ [(10 : ℚ)] ∧ mx ∈ [(10 : ℚ)] ∧
        (∀ a ∈ [(10 : ℚ)], mn ≤ a ∧ a ≤ mx) ∧
        b.cx = (mn + mx) / 2 ∧ b.sx = (mx - mn) + 2 * 5) ∧
      (∃ mn mx, mn ∈ [(10 : ℚ)] ∧ mx ∈ [(10 : ℚ)] ∧
        (∀ a ∈ [(10 : ℚ)], mn ≤ a ∧ a ≤ mx) ∧
        b.cy = (mn + mx) / 2 ∧ b.sy = (mx - mn) + 2 * 5) ∧
      (∃ mn mx, mn ∈ [(10 : ℚ)] ∧ mx ∈ [(10 : ℚ)] ∧
        (∀ a ∈ [(10 : ℚ)], mn ≤ a ∧ a ≤ mx) ∧
        b.cz = (mn + mx) / 2 ∧ b.sz = (mx - mn) + 2 * 5) ∧
      2 * 5 ≤ b.sx ∧ 2 * 5 ≤ b.sy ∧ 2 * 5 ≤ b.sz) ∧
    boxFromCoords [10] [10] [10] 5 = some ⟨10, 10, 10, 10, 10, 10⟩ :=
  ⟨C2_box [10] [10] [10] 5 (by decide) (by decide) (by decide) (by norm_num),
    by decide⟩

/-! ## Claim C5 -/

/-- C5: whenever the residue selection over the receptor scan yields no x
coordinates, `make_vina_box_from_residues.py` exits fatally with the
"no matching residues" outcome, and no config text is ever produced. -/
theorem C5_no_config (receptorPath : List Char) (lines : List (List Char))
    (reslist : List Char) (p : ℚ) (tg : List (List Char × ℤ)) (acc : Coords3)
    (hres : parse_residue_list reslist = .ok tg)
    (hfold : grcFold tg ⟨[], [], []⟩ lines = some acc)
    (hempty : acc.xs = []) :
    makeVinaBoxRun receptorPath lines reslist p = .fatalNoMatch ∧
    ∀ cfg, makeVinaBoxRun receptorPath lines reslist p ≠ .wrote cfg := by
  have h : makeVinaBoxRun receptorPath lines reslist p = .fatalNoMatch := by
    unfold makeVinaBoxRun get_residue_coords
    rw [hres]
    simp [hfold, hempty]
  exact ⟨h, fun cfg hc => by rw [h] at hc; exact BoxRun.noConfusion hc⟩

/-- Witness for C5: receptor `lnA` (chain A residue 1) with target residue
`B:2`, which matches nothing. -/
theorem C5_witness :
    makeVinaBoxRun "rec.pdbqt".toList [lnA] "B:2".toList 5 = .fatalNoMatch ∧
    ∀ cfg, makeVinaBoxRun "rec.pdbqt".toList [lnA] "B:2".toList 5 ≠ .wrote cfg :=
  C5_no_config "rec.pdbqt".toList [lnA] "B:2".toList 5 [(['B'], 2)] ⟨[], [], []⟩
    (by decide) (by decide) rfl

/-! ## Claim C9 -/

/-- A deterministic `key = value` block: one line per pair, fixed order. -/
def kvBlock (ps : List (List Char × List Char)) : List Char :=
  (ps.map (fun p => p.1 ++ " = ".toList ++ p.2 ++ ['\n'])).flatten

/-- C9: the config emitter is a function of the box and receptor path whose
output is exactly the `key = value` block with keys in the fixed order
receptor, center_x, center_y, center_z, size_x, size_y, size_z,
exhaustiveness, num_modes, energy_range — the numeric box fields rendered by
`formatFixed3`, whose output always ends in a dot followed by exactly three
digits, and the last three values fixed at 8, 9, 3. -/
theorem C9_config (receptor : List Char) (b : VinaBox) :
    configText receptor b = kvBlock
      [("receptor".toList, receptor),
       ("center_x".toList, formatFixed3 b.cx),
       ("center_y".toList, formatFixed3 b.cy),
       ("center_z".toList, formatFixed3 b.cz),
       ("size_x".toList, formatFixed3 b.sx),
       ("size_y".toList, formatFixed3 b.sy),
       ("size_z".toList, formatFixed3 b.sz),
       ("exhaustiveness".toList, "8".toList),
       ("num_modes".toList, "9".toList),
       ("energy_range".toList, "3".toList)] ∧
    ∀ q : ℚ, ∃ s d1 d2 d3, formatFixed3 q = s ++ ['.', d1, d2, d3] ∧
      d1.isDigit = true ∧ d2.isDigit = true ∧ d3.isDigit = true := by
  constructor
  · simp [configText, kvBlock, List.append_assoc]
  · intro q
    obtain ⟨s, d1, d2, d3, hshape, hd1, hd2, hd3, _⟩ := formatFixed3_shape q
    exact ⟨s, d1, d2, d3, hshape, hd1, hd2, hd3⟩

/-! ## Claim C3 -/

/-- C3 fails as stated: `lnBadY` is a matched atom-record line (chain A,
residue 1, in the target set) whose y field does not parse, yet its x value
1.0 is still appended to the x list — the line is not skipped as a unit. -/
theorem C3_counterexample :
    isAtomLine lnBadY = true ∧
    pyInt? (pySlice lnBadY 22 26) = some 1 ∧
    (stripWs [lnBadY.getD 21 ' '], (1 : ℤ)) ∈ [(['A'], (1 : ℤ))] ∧
    pyFloat? (pySlice lnBadY 38 46) = none ∧
    grcFold [(['A'], 1)] ⟨[], [], []⟩ [lnBadY] = some ⟨[1], [], []⟩ := by
  decide

/-- C3 (amended): on a matched atom-record line the three coordinate fields
are consumed left to right and appended one by one; the first field that
fails to parse ends the line's contribution, so a failing x field contributes
nothing, a failing y field still contributes the x value, and a failing z
field still contributes x and y.  In every case the scan continues with the
remaining lines. -/
theorem C3_partial_line (tg : List (List Char × ℤ)) (acc : Coords3)
    (r : ℤ) (ln : List Char) (rest : List (List Char))
    (hatom : isAtomLine ln = true) (hlen : 21 < ln.length)
    (hres : pyInt? (pySlice ln 22 26) = some r)
    (hmem : (stripWs [ln.getD 21 ' '], r) ∈ tg) :
    grcFold tg acc (ln :: rest) = grcFold tg (appendCoords acc ln) rest ∧
    (pyFloat? (pySlice ln 30 38) = none → appendCoords acc ln = acc) ∧
    (∀ x, pyFloat? (pySlice ln 30 38) = some x →
      pyFloat? (pySlice ln 38 46) = none →
      appendCoords acc ln = ⟨acc.xs ++ [x], acc.ys, acc.zs⟩) ∧
    (∀ x y, pyFloat? (pySlice ln 30 38) = some x →
      pyFloat? (pySlice ln 38 46) = some y →
      pyFloat? (pySlice ln 46 54) = none →
      appendCoords acc ln = ⟨acc.xs ++ [x], acc.ys ++ [y], acc.zs⟩) := by
  have hstep : grcStep tg acc ln = some (appendCoords acc ln) := by
    rw [grcStep, if_neg (by simp [hatom]), if_neg (by omega)]
    simp only [hres]
    rw [if_pos hmem]
  refine ⟨?_, ?_, ?_, ?_⟩
  · rw [grcFold, hstep]
  · intro hx
    rw [appendCoords, hx]
  · intro x hx hy
    rw [appendCoords, hx, hy]
  · intro x y hx hy hz
    rw [appendCoords, hx, hy, hz]

/-- Witness for C3 (amended): the y field of `lnBadY` fails, so exactly the x
value 1.0 is appended before the scan moves on. -/
theorem C3_witness :
    (grcFold [(['A'], 1)] ⟨[], [], []⟩ [lnBadY] =
      grcFold [(['A'], 1)] (appendCoords ⟨[], [], []⟩ lnBadY) [] ∧
    (pyFloat? (pySlice lnBadY 30 38) = none →
      appendCoords ⟨[], [], []⟩ lnBadY = ⟨[], [], []⟩) ∧
    (∀ x, pyFloat? (pySlice lnBadY 30 38) = some x →
      pyFloat? (pySlice lnBadY 38 46) = none →
      appendCoords ⟨[], [], []⟩ lnBadY = ⟨[] ++ [x], [], []⟩) ∧
    (∀ x y, pyFloat? (pySlice lnBadY 30 38) = some x →
      pyFloat? (pySlice lnBadY 38 46) = some y →
      pyFloat? (pySlice lnBadY 46 54) = none →
      appendCoords ⟨[], [], []⟩ lnBadY = ⟨[] ++ [x], [] ++ [y], []⟩)) ∧
    appendCoords ⟨[], [], []⟩ lnBadY = ⟨[1], [], []⟩ :=
  ⟨C3_partial_line [(['A'], 1)] ⟨[], [], []⟩ 1 lnBadY [] (by decide) (by decide)
    (by decide) (by decide), by decide⟩

/-! ## Claim C4 -/

theorem rpStep_len_le (acc : Coords3) (ln : List Char) :
    acc.xs.length ≤ (rpStep acc ln).xs.length ∧
    acc.ys.length ≤ (rpStep acc ln).ys.length ∧
    acc.zs.length ≤ (rpStep acc ln).zs.length := by
  rw [rpStep]
  by_cases h : isAtomLine ln = true
  · rw [if_pos (by rw [h])]
    cases hx : pyFloat? (pySlice ln 30 38) <;>
      cases hy : pyFloat? (pySlice ln 38 46) <;>
      cases hz : pyFloat? (pySlice ln 46 54) <;>
      simp [appendCoords, hx, hy, hz]
  · rw [if_neg h]
    exact ⟨le_rfl, le_rfl, le_rfl⟩

theorem rpFold_len_le (ls : List (List Char)) (acc : Coords3) :
    acc.xs.length ≤ (ls.foldl rpStep acc).xs.length ∧
    acc.ys.length ≤ (ls.foldl rpStep acc).ys.length ∧
    acc.zs.length ≤ (ls.foldl rpStep acc).zs.length := by
  induction ls generalizing acc with
  | nil => exact ⟨le_rfl, le_rfl, le_rfl⟩
  | cons ln ls ih =>
    obtain ⟨h1, h2, h3⟩ := rpStep_len_le acc ln
    obtain ⟨g1, g2, g3⟩ := ih (rpStep acc ln)
    exact ⟨h1.trans g1, h2.trans g2, h3.trans g3⟩

theorem collectCoords_pos_of_valid {lines : List (List Char)} {ln : List Char}
    (hmem : ln ∈ lines) (hatom : isAtomLine ln = true)
    (hx : ∃ x, pyFloat? (pySlice ln 30 38) = some x)
    (hy : ∃ y, pyFloat? (pySlice ln 38 46) = some y)
    (hz : ∃ z, pyFloat? (pySlice ln 46 54) = some z) :
    (collectCoords lines).xs ≠ [] ∧ (collectCoords lines).ys ≠ [] ∧
      (collectCoords lines).zs ≠ [] := by
  obtain ⟨pre, post, rfl⟩ := List.append_of_mem hmem
  obtain ⟨x, hx⟩ := hx
  obtain ⟨y, hy⟩ := hy
  obtain ⟨z, hz⟩ := hz
  rw [collectCoords, List.foldl_append, List.foldl_cons]
  set mid := pre.foldl rpStep ⟨[], [], []⟩ with hmid
  have hstep : rpStep mid ln =
      ⟨mid.xs ++ [x], mid.ys ++ [y], mid.zs ++ [z]⟩ := by
    rw [rpStep, if_pos (by rw [hatom]), appendCoords, hx, hy, hz]
  rw [hstep]
  obtain ⟨g1, g2, g3⟩ := rpFold_len_le post ⟨mid.xs ++ [x], mid.ys ++ [y], mid.zs ++ [z]⟩
  simp only [List.length_append, List.length_singleton] at g1 g2 g3
  refine ⟨?_, ?_, ?_⟩ <;>
    · intro hnil
      rw [← List.length_eq_zero] at hnil
      omega

/-- C4: for every ligand file containing at least one atom line whose three
coordinate fields all parse, the translator computes the per-axis centroid as
the arithmetic mean of the collected (successfully parsed) coordinates, a
single delta = target − centroid for the whole structure, and rewrites every
fully parsed atom line with exactly input coordinate + delta in each field
(rendered by the `%8.3f` formatter). -/
theorem C4_centroid_delta (cx cy cz : ℚ) (lines : List (List Char))
    (hvalid : ∃ ln ∈ lines, isAtomLine ln = true ∧
      (∃ x, pyFloat? (pySlice ln 30 38) = some x) ∧
      (∃ y, pyFloat? (pySlice ln 38 46) = some y) ∧
      (∃ z, pyFloat? (pySlice ln 46 54) = some z)) :
    ∃ out, recenterFile cx cy cz lines = some out ∧
    out.length = lines.length ∧
    ∃ dx dy dz,
      dx = cx - (collectCoords lines).xs.sum / ((collectCoords lines).xs.length : ℚ) ∧
      dy = cy - (collectCoords lines).ys.sum / ((collectCoords lines).ys.length : ℚ) ∧
      dz = cz - (collectCoords lines).zs.sum / ((collectCoords lines).zs.length : ℚ) ∧
      ∀ i (hi : i < lines.length) x y z,
        isAtomLine lines[i] = true →
        pyFloat? (pySlice lines[i] 30 38) = some x →
        pyFloat? (pySlice lines[i] 38 46) = some y →
        pyFloat? (pySlice lines[i] 46 54) = some z →
        out[i]? = some (lines[i].take 30 ++ fmt8_3 (x + dx) ++ fmt8_3 (y + dy) ++
          fmt8_3 (z + dz) ++ lines[i].drop 54) := by
  obtain ⟨ln, hmem, hatom, hx, hy, hz⟩ := hvalid
  obtain ⟨hxs, hys, hzs⟩ := collectCoords_pos_of_valid hmem hatom hx hy hz
  set dx := cx - (collectCoords lines).xs.sum / ((collectCoords lines).xs.length : ℚ)
    with hdx
  set dy := cy - (collectCoords lines).ys.sum / ((collectCoords lines).ys.length : ℚ)
    with hdy
  set dz := cz - (collectCoords lines).zs.sum / ((collectCoords lines).zs.length : ℚ)
    with hdz
  refine ⟨lines.map (translateLine dx dy dz), ?_, by simp, dx, dy, dz, rfl, rfl, rfl, ?_⟩
  · rw [recenterFile]
    simp only []
    rw [if_neg hxs, if_neg (by simp [hys, hzs])]
  · intro i hi x y z hiatom hix hiy hiz
    rw [List.getElem?_map, List.getElem?_eq_getElem hi]
    simp only [Option.map_some']
    rw [translateLine_parsed dx dy dz hiatom hix hiy hiz]

/-- Witness for C4: the file `[lnRem, lnA, lnB]` (centroid (2,3,4)) recentered
to (3,4,5). -/
theorem C4_witness :
    ∃ out, recenterFile 3 4 5 [lnRem, lnA, lnB] = some out ∧
    out.length = [lnRem, lnA, lnB].length ∧
    ∃ dx dy dz,
      dx = 3 - (collectCoords [lnRem, lnA, lnB]).xs.sum /
        ((collectCoords [lnRem, lnA, lnB]).xs.length : ℚ) ∧
      dy = 4 - (collectCoords [lnRem, lnA, lnB]).ys.sum /
        ((collectCoords [lnRem, lnA, lnB]).ys.length : ℚ) ∧
      dz = 5 - (collectCoords [lnRem, lnA, lnB]).zs.sum /
        ((collectCoords [lnRem, lnA, lnB]).zs.length : ℚ) ∧
      ∀ i (hi : i < [lnRem, lnA, lnB].length) x y z,
        isAtomLine [lnRem, lnA, lnB][i] = true →
        pyFloat? (pySlice [lnRem, lnA, lnB][i] 30 38) = some x →
        pyFloat? (pySlice [lnRem, lnA, lnB][i] 38 46) = some y →
        pyFloat? (pySlice [lnRem, lnA, lnB][i] 46 54) = some z →
        out[i]? = some ([lnRem, lnA, lnB][i].take 30 ++ fmt8_3 (x + dx) ++
          fmt8_3 (y + dy) ++ fmt8_3 (z + dz) ++ [lnRem, lnA, lnB][i].drop 54) :=
  C4_centroid_delta 3 4 5 [lnRem, lnA, lnB]
    ⟨lnA, by simp, by decide, ⟨1, by decide⟩, ⟨2, by decide⟩, ⟨3, by decide⟩⟩

/-! ## Claim C10 -/

/-- C10: in the translator's output for one structure, every line that is not
an ATOM/HETATM record, and every atom line with an unparseable coordinate
field, appears byte-for-byte identical to the input line at the same index,
and the output has exactly as many lines as the input, in order. -/
theorem C10_passthrough (cx cy cz : ℚ) (lines out : List (List Char))
    (h : recenterFile cx cy cz lines = some out) :
    out.length = lines.length ∧
    ∀ i (hi : i < lines.length),
      (isAtomLine lines[i] = false ∨
       pyFloat? (pySlice lines[i] 30 38) = none ∨
       pyFloat? (pySlice lines[i] 38 46) = none ∨
       pyFloat? (pySlice lines[i] 46 54) = none) →
      out[i]? = some lines[i] := by
  rw [recenterFile] at h
  by_cases hxs : (collectCoords lines).xs = []
  · rw [if_pos hxs] at h
    obtain rfl : lines = out := Option.some.injEq _ _ ▸ h
    exact ⟨rfl, fun i hi _ => (List.getElem?_eq_getElem hi)⟩
  · rw [if_neg hxs] at h
    by_cases hyz : (collectCoords lines).ys = [] ∨ (collectCoords lines).zs = []
    · rw [if_pos hyz] at h
      exact absurd h (Option.noConfusion)
    · rw [if_neg hyz] at h
      simp only [Option.some.injEq] at h
      subst h
      refine ⟨by simp, ?_⟩
      intro i hi hskip
      rw [List.getElem?_map, List.getElem?_eq_getElem hi, Option.map_some']
      rw [translateLine_skip hskip]

/-- Witness for C10: a file of a REMARK line and an all-unparseable atom line
is passed through unchanged. -/
theorem C10_witness :
    ([lnRem, lnBadAll].length = [lnRem, lnBadAll].length ∧
    ∀ i (hi : i < [lnRem, lnBadAll].length),
      (isAtomLine [lnRem, lnBadAll][i] = false ∨
       pyFloat? (pySlice [lnRem, lnBadAll][i] 30 38) = none ∨
       pyFloat? (pySlice [lnRem, lnBadAll][i] 38 46) = none ∨
       pyFloat? (pySlice [lnRem, lnBadAll][i] 46 54) = none) →
      [lnRem, lnBadAll][i]? = some [lnRem, lnBadAll][i]) :=
  C10_passthrough 1 2 3 [lnRem, lnBadAll] [lnRem, lnBadAll] (by decide)

/-! ## Claim C7 -/

theorem recenterFile_no_atoms {cx cy cz : ℚ} {lines : List (List Char)}
    (h : (collectCoords lines).xs = []) :
    recenterFile cx cy cz lines = some lines := by
  rw [recenterFile, if_pos h]

/-- If every file in the batch translates without crashing, the batch
completes, produces one output per input, and the output at each index is the
per-file translation result. -/
theorem recenterBatch_total (cx cy cz : ℚ) (files : List (List (List Char)))
    (hall : ∀ j (hj : j < files.length),
      ∃ o, recenterFile cx cy cz files[j] = some o) :
    ∃ out, recenterBatch cx cy cz files = some out ∧
      out.length = files.length ∧
      ∀ j (hj : j < files.length), recenterFile cx cy cz files[j] = out[j]? := by
  induction files with
  | nil => exact ⟨[], rfl, rfl, fun j hj => by simp at hj⟩
  | cons f fs ih =>
    obtain ⟨o0, ho0⟩ := hall 0 (by simp)
    simp only [List.getElem_cons_zero] at ho0
    have hrest : ∀ j (hj : j < fs.length),
        ∃ o, recenterFile cx cy cz fs[j] = some o := by
      intro j hj
      have := hall (j + 1) (by simpa using Nat.succ_lt_succ hj)
      simpa using this
    obtain ⟨outs, houts, hlen, hptw⟩ := ih hrest
    refine ⟨o0 :: outs, ?_, by simp [hlen], ?_⟩
    · simp only [recenterBatch, ho0, houts]
    · intro j hj
      match j with
      | 0 => simpa using ho0
      | j + 1 =>
        have := hptw j (by simpa using hj)
        simpa using this

/-- C7: in a batch, a ligand file with zero successfully parseable atom
coordinates is left unchanged (its translation is a no-op), and provided every
file in the batch translates without crashing, the whole batch completes with
one output per input, each remaining file translated normally. -/
theorem C7_batch (cx cy cz : ℚ) (files : List (List (List Char))) (i : ℕ)
    (hi : i < files.length)
    (hempty : (collectCoords files[i]).xs = [])
    (hothers : ∀ j (hj : j < files.length),
      ∃ o, recenterFile cx cy cz files[j] = some o) :
    ∃ out, recenterBatch cx cy cz files = some out ∧
      out.length = files.length ∧
      out[i]? = some files[i] ∧
      ∀ j (hj : j < files.length), recenterFile cx cy cz files[j] = out[j]? := by
  obtain ⟨out, hout, hlen, hptw⟩ := recenterBatch_total cx cy cz files hothers
  refine ⟨out, hout, hlen, ?_, hptw⟩
  have h := hptw i hi
  rw [recenterFile_no_atoms hempty] at h
  exact h.symm

/-- Witness for C7: a three-file batch whose middle file has no parseable atom
coordinates; it is passed through while the other two are translated. -/
theorem C7_witness :
    ∃ out, recenterBatch 1 2 3 [[lnA], [lnBadAll], [lnB]] = some out ∧
      out.length = [[lnA], [lnBadAll], [lnB]].length ∧
      out[1]? = some [lnBadAll] ∧
      ∀ j (hj : j < [[lnA], [lnBadAll], [lnB]].length),
        recenterFile 1 2 3 [[lnA], [lnBadAll], [lnB]][j] = out[j]? :=
  C7_batch 1 2 3 [[lnA], [lnBadAll], [lnB]] 1 (by decide) (by decide)
    (by
      intro j hj
      have hj3 : j < 3 := by simpa using hj
      refine Option.isSome_iff_exists.mp ?_
      interval_cases j
      · show (recenterFile 1 2 3 [lnA]).isSome = true
        decide
      · show (recenterFile 1 2 3 [lnBadAll]).isSome = true
        decide
      · show (recenterFile 1 2 3 [lnB]).isSome = true
        decide)

/-! ## Claim C6 -/

/-- A stripped token the parser accepts: exactly one colon and an
integer-parseable residue part. -/
def goodTok (i : List Char) : Prop :=
  ∃ c r n, splitOnChar ':' i = [c, r] ∧ pyInt? r = some n

theorem splitOnChar_eq_self_of_not_mem {sep : Char} {l : List Char}
    (h : sep ∉ l) : splitOnChar sep l = [l] := by
  induction l with
  | nil => rfl
  | cons c t ih =>
    have hc : c ≠ sep := by intro he; exact h (by simp [he])
    have ht : sep ∉ t := by intro he; exact h (by simp [he])
    rw [splitOnChar]
    simp only [hc, if_false, ih ht]

theorem resErrMsg_contains (i : List Char) :
    ∃ a b, resErrMsg i = a ++ i ++ b :=
  ⟨"❌ Invalid residue specifier: ".toList, ". Use format Chain:Resid".toList, rfl⟩

theorem prlGo_skip_good (pre : List (List Char)) :
    ∀ (acc : List (List Char × ℤ)) (rest : List (List Char)),
    (∀ t ∈ pre, stripWs t = [] ∨ goodTok (stripWs t)) →
    ∃ acc2, prlGo (pre ++ rest) acc = prlGo rest acc2 := by
  induction pre with
  | nil => exact fun acc rest _ => ⟨acc, rfl⟩
  | cons t ts ih =>
    intro acc rest hpre
    have hts : ∀ u ∈ ts, stripWs u = [] ∨ goodTok (stripWs u) := by
      intro u hu
      exact hpre u (by simp [hu])
    rcases hpre t (by simp) with hemp | hgood
    · have hstep : prlGo ((t :: ts) ++ rest) acc = prlGo (ts ++ rest) acc := by
        rw [List.cons_append, prlGo, if_pos hemp]
      rw [hstep]
      exact ih acc rest hts
    · obtain ⟨c, r, n, hsplit, hint⟩ := hgood
      have hne : stripWs t ≠ [] := by
        intro he
        rw [he] at hsplit
        simp [splitOnChar] at hsplit
      have hstep : prlGo ((t :: ts) ++ rest) acc =
          prlGo (ts ++ rest) (acc ++ [(stripWs c, n)]) := by
        rw [List.cons_append, prlGo, if_neg hne]
        simp only [hsplit, hint]
      rw [hstep]
      exact ih _ rest hts

theorem prlGo_bad_token (tok : List Char) (rest : List (List Char))
    (acc : List (List Char × ℤ))
    (hne : stripWs tok ≠ [])
    (hbad : ':' ∉ stripWs tok ∨
      ∃ c r, splitOnChar ':' (stripWs tok) = [c, r] ∧ pyInt? r = none) :
    prlGo (tok :: rest) acc = .error (resErrMsg (stripWs tok)) := by
  rw [prlGo, if_neg hne]
  rcases hbad with hnc | ⟨c, r, hsplit, hint⟩
  · rw [splitOnChar_eq_self_of_not_mem hnc]
  · simp only [hsplit, hint]

theorem prlGo_all_good (toks : List (List Char)) :
    ∀ acc : List (List Char × ℤ),
    (∀ t ∈ toks, stripWs t = [] ∨ goodTok (stripWs t)) →
    ∃ res, prlGo toks acc = .ok res := by
  intro acc h
  obtain ⟨acc2, hacc2⟩ := prlGo_skip_good toks acc [] h
  rw [List.append_nil] at hacc2
  exact ⟨acc2, by rw [hacc2, prlGo]⟩

/-- C6: for every residue-list string, a non-empty comma-separated token that
(after whitespace stripping) lacks the colon separator or has a residue part
that does not parse as an integer — reached after only empty or well-formed
tokens — makes the parser exit fatally with the message naming that stripped
token verbatim, and the run can never produce a config text; conversely a
list whose tokens are all empty or, once stripped of surrounding whitespace,
of valid `Chain:Integer` shape is accepted. -/
theorem C6_residue_tokens :
    (∀ (s : List Char) (pre rest : List (List Char)) (tok : List Char),
      splitOnChar ',' s = pre ++ tok :: rest →
      (∀ t ∈ pre, stripWs t = [] ∨ goodTok (stripWs t)) →
      stripWs tok ≠ [] →
      (':' ∉ stripWs tok ∨
        ∃ c r, splitOnChar ':' (stripWs tok) = [c, r] ∧ pyInt? r = none) →
      parse_residue_list s = .error (resErrMsg (stripWs tok)) ∧
      (∃ a b, resErrMsg (stripWs tok) = a ++ stripWs tok ++ b) ∧
      ∀ (receptorPath : List Char) (lines : List (List Char)) (p : ℚ),
        makeVinaBoxRun receptorPath lines s p =
          .fatalResidues (resErrMsg (stripWs tok)) ∧
        ∀ cfg, makeVinaBoxRun receptorPath lines s p ≠ .wrote cfg) ∧
    (∀ s : List Char,
      (∀ t ∈ splitOnChar ',' s, stripWs t = [] ∨ goodTok (stripWs t)) →
      ∃ res, parse_residue_list s = .ok res) := by
  constructor
  · intro s pre rest tok hsplit hpre hne hbad
    have herr : parse_residue_list s = .error (resErrMsg (stripWs tok)) := by
      rw [parse_residue_list, hsplit]
      obtain ⟨acc2, hacc2⟩ := prlGo_skip_good pre [] (tok :: rest) hpre
      rw [hacc2, prlGo_bad_token tok rest acc2 hne hbad]
    refine ⟨herr, resErrMsg_contains _, ?_⟩
    intro receptorPath lines p
    have hrun : makeVinaBoxRun receptorPath lines s p =
        .fatalResidues (resErrMsg (stripWs tok)) := by
      rw [makeVinaBoxRun, herr]
    exact ⟨hrun, fun cfg hc => by rw [hrun] at hc; exact BoxRun.noConfusion hc⟩
  · intro s h
    rw [parse_residue_list]
    exact prlGo_all_good (splitOnChar ',' s) [] h

/-- Witness for C6: the malformed token `A-12` (no colon) is fatal and named
verbatim; the whitespace-padded valid list `" A : 12 , B:7"` is accepted. -/
theorem C6_witness :
    (parse_residue_list "A-12".toList =
        .error (resErrMsg (stripWs "A-12".toList)) ∧
      (∃ a b, resErrMsg (stripWs "A-12".toList) =
        a ++ stripWs "A-12".toList ++ b) ∧
      ∀ (receptorPath : List Char) (lines : List (List Char)) (p : ℚ),
        makeVinaBoxRun receptorPath lines "A-12".toList p =
          .fatalResidues (resErrMsg (stripWs "A-12".toList)) ∧
        ∀ cfg, makeVinaBoxRun receptorPath lines "A-12".toList p ≠ .wrote cfg) ∧
    (∃ res, parse_residue_list " A : 12 , B:7".toList = .ok res) :=
  ⟨C6_residue_tokens.1 "A-12".toList [] [] "A-12".toList (by decide)
      (by simp) (by decide) (Or.inl (by decide)),
    C6_residue_tokens.2 " A : 12 , B:7".toList
      (by
        intro t ht
        have hsplit : splitOnChar ',' " A : 12 , B:7".toList =
            [" A : 12 ".toList, " B:7".toList] := by decide
        rw [hsplit] at ht
        rcases List.mem_cons.mp ht with h1 | h1
        · right
          rw [h1]
          exact ⟨"A ".toList, " 12".toList, 12, by decide, by decide⟩
        · right
          rw [List.mem_singleton.mp h1]
          exact ⟨"B".toList, "7".toList, 7, by decide, by decide⟩)⟩
